import Mathlib

/-!
Verification of the digest synthesis and insight-gating engine of the feed
repository (src/src/analyze/digest_builder.py), as a shallow embedding.

Conventions of the embedding:
- Python strings are Lean `String`, manipulated through their `List Char`
  data; `str.strip`, `str.rstrip`, `str.lower`, `str.split` and the regex
  token scan `[a-z0-9]+` are embedded character by character (faithful for
  ASCII text; Python additionally lowercases non-ASCII letters, which none
  of the gating logic depends on).
- Python sets are lists under membership; set cardinalities are lengths of
  deduplicated lists.
- The LLM client is an oracle: each call site receives either `some parsed`
  (the call returned and validated against the response schema) or `none`
  (the call raised, covering transport errors and schema violations alike,
  both of which surface as exceptions caught at the call site).
- The float comparison `overlap >= 0.8` on `len(inter)/min(a, b)` is
  embedded as the integer comparison `4 * min a b ≤ 5 * len(inter)`; the two
  agree for every set size below 2^54 / 5, far beyond any token set arising
  from a string.
- `DailyDigest.id` (a fresh UUID) and `DailyDigest.date` (the wall clock)
  are nondeterministic environment reads and are omitted from the record.
-/

namespace Feed

/-! ## Python string primitives -/

/-- Whitespace recognized by Python `str.strip` / `str.split` (ASCII part). -/
def pyIsSpace (c : Char) : Bool :=
  c == ' ' || c == '\t' || c == '\n' || c == '\r' || c == '\x0b' || c == '\x0c'

/-- Drop the trailing characters satisfying `p` (Python `rstrip`). -/
def dropTrailing (p : Char → Bool) (cs : List Char) : List Char :=
  (cs.reverse.dropWhile p).reverse

/-- Python `str.strip()`: remove leading and trailing whitespace. -/
def pyStrip (s : String) : String :=
  ⟨dropTrailing pyIsSpace (s.data.dropWhile pyIsSpace)⟩

/-- Embeds `DigestBuilder._normalize_url`: `url.strip().rstrip("/")`. -/
def normalize_url (url : String) : String :=
  ⟨dropTrailing (fun c => c == '/') (dropTrailing pyIsSpace (url.data.dropWhile pyIsSpace))⟩

/-- Accumulator loop for `splitWords`: `acc` is the current word, reversed. -/
def splitWordsAux : List Char → List Char → List (List Char)
  | [], acc => if acc.isEmpty then [] else [acc.reverse]
  | c :: rest, acc =>
    if pyIsSpace c then
      if acc.isEmpty then splitWordsAux rest []
      else acc.reverse :: splitWordsAux rest []
    else splitWordsAux rest (c :: acc)

/-- Python `str.split()` with no separator: maximal runs of non-whitespace. -/
def splitWords (cs : List Char) : List (List Char) :=
  splitWordsAux cs []

/-- Interleave single spaces between words (Python `" ".join`). -/
def joinWords : List (List Char) → List Char
  | [] => []
  | [w] => w
  | w :: rest => w ++ ' ' :: joinWords rest

/-- Embeds `DigestBuilder._normalize_text`: `" ".join(text.lower().split())`. -/
def normalize_text (text : String) : String :=
  ⟨joinWords (splitWords (text.data.map Char.toLower))⟩

/-- Character class of the token regex `[a-z0-9]+`. -/
def isTokenChar (c : Char) : Bool :=
  decide (('a' ≤ c ∧ c ≤ 'z') ∨ ('0' ≤ c ∧ c ≤ '9'))

/-- Accumulator loop for `tokenRuns`: `acc` is the current run, reversed. -/
def tokenRunsAux : List Char → List Char → List (List Char)
  | [], acc => if acc.isEmpty then [] else [acc.reverse]
  | c :: rest, acc =>
    if isTokenChar c then tokenRunsAux rest (c :: acc)
    else
      if acc.isEmpty then tokenRunsAux rest []
      else acc.reverse :: tokenRunsAux rest []

/-- Maximal runs matched by `re.findall(r"[a-z0-9]+", ·)`, in order. -/
def tokenRuns (cs : List Char) : List (List Char) :=
  tokenRunsAux cs []

/-- Token set of a string: `set(re.findall(r"[a-z0-9]+", s))`. -/
def tokenSet (s : String) : List (List Char) :=
  (tokenRuns s.data).dedup

/-- Cardinality of the intersection of two token sets (first one deduplicated). -/
def interCard (a b : List (List Char)) : Nat :=
  (a.filter (fun t => decide (t ∈ b))).length

/-! ## Data model (src/models.py consumers, as used by digest_builder) -/

/-- Summarized article, the read-only input of the digest builder. Fields are
the ones `DigestBuilder` reads; `summary` is optional as in the source model. -/
structure Article where
  id : String
  url : String
  title : String
  category : String
  summary : Option String
  key_takeaways : List String
  feed_name : String
  feed_url : String
deriving DecidableEq

/-- Candidate insight parsed from the LLM (`InsightResponse`). Pydantic
validates `confidence` into 1..5 at parse time; the gate only compares it. -/
structure InsightResponse where
  insight : String
  why_unintuitive : String
  confidence : Nat
  supporting_urls : List String
deriving DecidableEq

/-- Approved insight as stored in the digest (`NonObviousInsight`). -/
structure NonObviousInsight where
  insight : String
  why_unintuitive : String
  confidence : Nat
  supporting_urls : List String
deriving DecidableEq

/-- Parsed category-level LLM response (`CategorySynthesisResponse`). -/
structure CategorySynthesisResponse where
  synthesis : String
  top_takeaways : List String
  non_obvious_insight : Option InsightResponse
deriving DecidableEq

/-- Parsed overall-level LLM response (`OverallSynthesisResponse`). -/
structure OverallSynthesisResponse where
  overall_themes : List String
  must_read_overall : List String
  cross_category_insights : List InsightResponse
deriving DecidableEq

/-- Per-category digest (`CategoryDigest`). -/
structure CategoryDigest where
  name : String
  article_count : Nat
  articles : List Article
  synthesis : String
  top_takeaways : List String
  non_obvious_insight : Option NonObviousInsight
deriving DecidableEq

/-- Final digest (`DailyDigest`); the nondeterministic `id` and `date`
fields (UUID, wall clock) are omitted, `processing_time_seconds` is set by
the caller, not by `build_digest`. -/
structure DailyDigest where
  categories : List CategoryDigest
  total_articles : Nat
  total_feeds : Nat
  overall_themes : List String
  must_read : List String
  non_obvious_insights : List NonObviousInsight
deriving DecidableEq

/-- The `insights_mode` configuration tri-state. -/
inductive InsightsMode where
  | off
  | auto
  | always
deriving DecidableEq

/-- Constructor default for `insight_min_confidence`. -/
def default_insight_min_confidence : Nat := 4

/-- Constructor default for `max_insights_per_digest`. -/
def default_max_insights_per_digest : Nat := 2

/-- LLM client as an oracle over call sites: the category-level call receives
the category name and its articles, the overall call receives the category
digests (the data that determines the prompt). `none` models a raised
exception or a response that failed schema validation. -/
structure LLMOracle where
  categoryResp : String → List Article → Option CategorySynthesisResponse
  overallResp : List CategoryDigest → Option OverallSynthesisResponse

/-! ## The insight gate -/

/-- Loop of `DigestBuilder._filter_urls`: walk the candidate URLs keeping
normalized ones that are in the allowed set and not yet seen. -/
def filterUrlsGo (allowed : List String) : List String → List String → List String
  | [], _ => []
  | u :: rest, seen =>
    let n := normalize_url u
    if n ∈ allowed ∧ n ∉ seen then n :: filterUrlsGo allowed rest (n :: seen)
    else filterUrlsGo allowed rest seen

/-- Embeds `DigestBuilder._filter_urls`. -/
def filter_urls (urls : List String) (allowed : List String) : List String :=
  filterUrlsGo allowed urls []

/-- Embeds `DigestBuilder._is_near_duplicate`. -/
def is_near_duplicate (candidate : String) (existingTexts : List String) : Bool :=
  let normalized := normalize_text candidate
  if normalized = "" then true
  else
    let candTokens := tokenSet normalized
    if candTokens = [] then true
    else
      existingTexts.any fun text =>
        let existingNormalized := normalize_text text
        if existingNormalized = "" then false
        else if normalized = existingNormalized then true
        else
          let existingTokens := tokenSet existingNormalized
          if existingTokens = [] then false
          else
            decide (4 * Nat.min candTokens.length existingTokens.length
              ≤ 5 * interCard candTokens existingTokens)

/-- Embeds `DigestBuilder._approve_insight`: the single-candidate gate. -/
def approve_insight (mode : InsightsMode) (minConfidence : Nat)
    (insight : Option InsightResponse) (allowedUrls : List String)
    (existingTexts : List String) : Option NonObviousInsight :=
  match mode, insight with
  | .off, _ => none
  | _, none => none
  | m, some ins =>
    if m = .auto ∧ ins.confidence < minConfidence then none
    else
      let insightText := pyStrip ins.insight
      let whyText := pyStrip ins.why_unintuitive
      if insightText = "" ∨ whyText = "" then none
      else
        let supportingUrls := filter_urls ins.supporting_urls allowedUrls
        if supportingUrls = [] then none
        else if is_near_duplicate insightText existingTexts then none
        else
          some { insight := insightText, why_unintuitive := whyText,
                 confidence := ins.confidence, supporting_urls := supportingUrls }

/-- Loop of `DigestBuilder._approve_insights`: the accumulated `approved`
list grows the duplicate-check context; the cap is checked after appending. -/
def approveInsightsGo (mode : InsightsMode) (minConfidence : Nat)
    (allowedUrls : List String) (existingTexts : List String) (maxCount : Nat) :
    List InsightResponse → List NonObviousInsight → List NonObviousInsight
  | [], approved => approved
  | c :: rest, approved =>
    match approve_insight mode minConfidence (some c) allowedUrls
        (existingTexts ++ approved.map (fun i => i.insight)) with
    | none => approveInsightsGo mode minConfidence allowedUrls existingTexts maxCount rest approved
    | some f =>
      if maxCount ≤ (approved ++ [f]).length then approved ++ [f]
      else approveInsightsGo mode minConfidence allowedUrls existingTexts maxCount rest
        (approved ++ [f])

/-- Embeds `DigestBuilder._approve_insights`: the batch gate. -/
def approve_insights (mode : InsightsMode) (minConfidence : Nat)
    (insights : List InsightResponse) (allowedUrls : List String)
    (existingTexts : List String) (maxCount : Nat) : List NonObviousInsight :=
  approveInsightsGo mode minConfidence allowedUrls existingTexts maxCount insights []

/-! ## The digest builder -/

/-- The apostrophe character, kept out of string literals. -/
def apostrophe : Char := Char.ofNat 39

/-- Deterministic fallback synthesis used when the category-level LLM call
raises: the f-string from `_build_category_digest`. -/
def fallback_synthesis (categoryName : String) (articleCount : Nat) : String :=
  "Today" ++ String.singleton apostrophe ++ "s " ++ categoryName
    ++ " coverage includes " ++ toString articleCount ++ " articles."

/-- Python `x or default` for an optional string: `None` and `""` are falsy. -/
def orIfBlank (s : Option String) (default : String) : String :=
  match s with
  | some v => if v = "" then default else v
  | none => default

/-- Embeds `DigestBuilder._build_category_digest`. The branch on the empty
article list is unreachable from `build_digest` (category groups are
nonempty); Python would raise an IndexError there. -/
def build_category_digest (mode : InsightsMode) (minConfidence : Nat)
    (categoryName : String) (articles : List Article)
    (resp : Option CategorySynthesisResponse) : CategoryDigest :=
  let allowedUrls := articles.map (fun a => normalize_url a.url)
  if 1 < articles.length then
    match resp with
    | some parsed =>
      { name := categoryName, article_count := articles.length, articles := articles,
        synthesis := parsed.synthesis, top_takeaways := parsed.top_takeaways,
        non_obvious_insight := approve_insight mode minConfidence
          parsed.non_obvious_insight allowedUrls parsed.top_takeaways }
    | none =>
      { name := categoryName, article_count := articles.length, articles := articles,
        synthesis := fallback_synthesis categoryName articles.length,
        top_takeaways := (articles.take 3).filterMap (fun a => a.key_takeaways.head?),
        non_obvious_insight := none }
  else
    match articles with
    | a :: _ =>
      { name := categoryName, article_count := articles.length, articles := articles,
        synthesis := orIfBlank a.summary ("One article from " ++ a.feed_name ++ "."),
        top_takeaways := a.key_takeaways.take 3,
        non_obvious_insight := none }
    | [] =>
      { name := categoryName, article_count := 0, articles := [],
        synthesis := "", top_takeaways := [], non_obvious_insight := none }

/-- Embeds `DigestBuilder._synthesize_overall`. Returns
`(overall_themes, must_read, non_obvious_insights)`. -/
def synthesize_overall (mode : InsightsMode) (minConfidence : Nat) (maxCount : Nat)
    (categoryDigests : List CategoryDigest)
    (resp : Option OverallSynthesisResponse) :
    List String × List String × List NonObviousInsight :=
  match categoryDigests with
  | [] => ([], [], [])
  | _ :: _ =>
    match resp with
    | some parsed =>
      let allowedUrls :=
        (categoryDigests.map (fun d => d.articles.map (fun a => normalize_url a.url))).flatten
      (parsed.overall_themes,
       (filter_urls parsed.must_read_overall allowedUrls).take 3,
       approve_insights mode minConfidence parsed.cross_category_insights allowedUrls
         parsed.overall_themes maxCount)
    | none => ([], [], [])

/-- Computable lexicographic comparison on character lists, the order Python
uses on strings (code-point lexicographic). -/
def charListLe : List Char → List Char → Bool
  | [], _ => true
  | _ :: _, [] => false
  | c :: cs, d :: ds => if c < d then true else if d < c then false else charListLe cs ds

/-- Code-point lexicographic `≤` on strings, as Python compares them. -/
def pyStrLe (a b : String) : Bool := charListLe a.data b.data

/-- Sorted list of the distinct category names of the input articles, the
iteration order of `sorted(by_category.items())`. Python compares the string
keys lexicographically by code point; on a duplicate-free list every correct
sort yields the same list, so the stable sort of the source is modeled by
insertion sort. -/
def category_names (articles : List Article) : List String :=
  ((articles.map (fun a => a.category)).dedup).insertionSort
    (fun a b => pyStrLe a b = true)

/-- The per-category digests produced by `build_digest`, in sorted category
order, each category holding its articles in input order. -/
def category_digests_of (mode : InsightsMode) (minConfidence : Nat)
    (oracle : LLMOracle) (articles : List Article) : List CategoryDigest :=
  (category_names articles).map fun n =>
    build_category_digest mode minConfidence n
      (articles.filter (fun a => a.category == n))
      (oracle.categoryResp n (articles.filter (fun a => a.category == n)))

/-- Embeds `DigestBuilder.build_digest`. Note the return value: the source
returns only the `DailyDigest`; no token counts are accumulated or returned
anywhere in `digest_builder.py`. -/
def build_digest (mode : InsightsMode) (minConfidence : Nat) (maxCount : Nat)
    (oracle : LLMOracle) (articles : List Article) : DailyDigest :=
  let categoryDigests := category_digests_of mode minConfidence oracle articles
  let overall := synthesize_overall mode minConfidence maxCount categoryDigests
    (oracle.overallResp categoryDigests)
  { categories := categoryDigests,
    total_articles := articles.length,
    total_feeds := (articles.map (fun a => a.feed_url)).dedup.length,
    overall_themes := overall.1,
    must_read := overall.2.1,
    non_obvious_insights := overall.2.2 }

/-- Modelled from the spec: the batch gate as §4.2 words it — "apply the gate
sequentially, growing existing_texts with each newly approved insight and
stop once max_insights_per_digest are approved". Stopping happens as soon as
the approved count has reached the cap, before any further candidate is
examined. Used to compare the source loop against the specified process. -/
def approveInsightsSpecGo (mode : InsightsMode) (minConfidence : Nat)
    (allowedUrls : List String) (existingTexts : List String) (maxCount : Nat) :
    List InsightResponse → List NonObviousInsight → List NonObviousInsight
  | [], approved => approved
  | c :: rest, approved =>
    if maxCount ≤ approved.length then approved
    else
      match approve_insight mode minConfidence (some c) allowedUrls
          (existingTexts ++ approved.map (fun i => i.insight)) with
      | none =>
        approveInsightsSpecGo mode minConfidence allowedUrls existingTexts maxCount rest approved
      | some f =>
        approveInsightsSpecGo mode minConfidence allowedUrls existingTexts maxCount rest
          (approved ++ [f])

/-- Modelled from the spec: entry point of the specified batch-gate process. -/
def approve_insights_spec (mode : InsightsMode) (minConfidence : Nat)
    (insights : List InsightResponse) (allowedUrls : List String)
    (existingTexts : List String) (maxCount : Nat) : List NonObviousInsight :=
  approveInsightsSpecGo mode minConfidence allowedUrls existingTexts maxCount insights []

/-! ## Concrete fixtures used to instantiate the theorems -/

/-- Default category digest used with `List.getD` in closed statements. -/
def emptyCd : CategoryDigest :=
  { name := "", article_count := 0, articles := [], synthesis := "",
    top_takeaways := [], non_obvious_insight := none }

/-- Fixture: first Tech article. -/
def wTech1 : Article :=
  { id := "t1", url := "https://e.example/a", title := "Alpha", category := "Tech",
    summary := some "Sum one.", key_takeaways := ["k1", "k2", "k3", "k4"],
    feed_name := "Feed One", feed_url := "https://e.example/f1" }

/-- Fixture: second Tech article. -/
def wTech2 : Article :=
  { id := "t2", url := "https://e.example/b", title := "Beta", category := "Tech",
    summary := none, key_takeaways := ["k5"],
    feed_name := "Feed One", feed_url := "https://e.example/f1" }

/-- Fixture: single Biz article. -/
def wBiz : Article :=
  { id := "b1", url := "https://e.example/c", title := "Gamma", category := "Biz",
    summary := some "Biz summary.", key_takeaways := ["b1", "b2"],
    feed_name := "Feed Two", feed_url := "https://e.example/f2" }

/-- Fixture article list: a two-article Tech category and a one-article Biz one. -/
def wArticles : List Article := [wTech1, wTech2, wBiz]

/-- Fixture candidate insight for the Tech category, citing a URL with a
trailing slash that normalizes into the category URL set. -/
def wCatIns : InsightResponse :=
  { insight := "novel alpha beta", why_unintuitive := "because gamma",
    confidence := 5, supporting_urls := ["https://e.example/a/"] }

/-- Fixture category-level response for the Tech category. -/
def wCatResp : CategorySynthesisResponse :=
  { synthesis := "Tech synthesis.", top_takeaways := ["take one"],
    non_obvious_insight := some wCatIns }

/-- Fixture cross-category candidate insight. -/
def wOverallIns : InsightResponse :=
  { insight := "cross delta epsilon", why_unintuitive := "since zeta",
    confidence := 5, supporting_urls := ["https://e.example/c"] }

/-- Fixture overall-level response: must-read candidates include a duplicate
after normalization and a URL outside the article set. -/
def wOverallResp : OverallSynthesisResponse :=
  { overall_themes := ["theme alpha"],
    must_read_overall := ["https://e.example/c/", "https://nope.example/x",
      "https://e.example/c", "https://e.example/a"],
    cross_category_insights := [wOverallIns] }

/-- Fixture oracle answering the Tech category and the overall call. -/
def wOracle : LLMOracle :=
  { categoryResp := fun n _ => if n = "Tech" then some wCatResp else none,
    overallResp := fun _ => some wOverallResp }

/-- Fixture digest built from the fixtures above. -/
def wDigest : DailyDigest := build_digest .always 4 2 wOracle wArticles

/-- Fixture oracle whose every call raises. -/
def wOracleFail : LLMOracle :=
  { categoryResp := fun _ _ => none, overallResp := fun _ => none }

/-- Fixture digest built while every LLM call raises. -/
def wDigestFail : DailyDigest := build_digest .auto 4 2 wOracleFail wArticles

/-- Fixture mirroring the two-article input of the failing test
`tests/test_analyze.py::test_groups_articles_by_category`. -/
def c2TechArticle : Article :=
  { id := "test123456789012", url := "https://example.com/test",
    title := "Test Article About AI", category := "Technology", summary := none,
    key_takeaways := [], feed_name := "Test Feed",
    feed_url := "https://example.com/feed" }

/-- Fixture: the second article of that test. -/
def c2BizArticle : Article :=
  { id := "test456789012345", url := "https://example.com/test2",
    title := "Another Article", category := "Business", summary := some "Test summary",
    key_takeaways := [], feed_name := "Another Feed",
    feed_url := "https://example.com/feed2" }

/-- Fixture oracle mirroring the mocked client of that test: the overall call
returns empty themes, must-reads and insights. -/
def c2Oracle : LLMOracle :=
  { categoryResp := fun _ _ => none,
    overallResp := fun _ => some
      { overall_themes := [], must_read_overall := [], cross_category_insights := [] } }

/-- Fixture candidate that passes every gate rule. -/
def c4Candidate : InsightResponse :=
  { insight := "alpha beta", why_unintuitive := "because reasons",
    confidence := 5, supporting_urls := ["https://a.example/x"] }

/-- Fixture candidate with confidence 2, below the default minimum. -/
def wLowIns : InsightResponse :=
  { insight := "low confidence finding", why_unintuitive := "weak evidence",
    confidence := 2, supporting_urls := ["https://a.example/x"] }

/-- Fixture candidate whose text is punctuation only. -/
def wPunctIns : InsightResponse :=
  { insight := "!!! ???", why_unintuitive := "written without words",
    confidence := 5, supporting_urls := ["https://a.example/x"] }

/-- Fixture single article whose summary is present but empty. -/
def emptySummaryArticle : Article :=
  { id := "a1", url := "https://e.example/one", title := "T", category := "Tech",
    summary := some "", key_takeaways := ["k1"], feed_name := "Example Feed",
    feed_url := "https://e.example/feed" }

/-! ## Lemmas about url filtering -/

theorem filterUrlsGo_subset (allowed : List String) :
    ∀ (urls seen : List String) (u : String),
      u ∈ filterUrlsGo allowed urls seen → u ∈ allowed := by
  intro urls
  induction urls with
  | nil => intro seen u h; simp [filterUrlsGo] at h
  | cons v rest ih =>
    intro seen u h
    rw [filterUrlsGo] at h
    split at h
    · rename_i hcond
      rcases List.mem_cons.mp h with h1 | h1
      · exact h1 ▸ hcond.1
      · exact ih _ u h1
    · exact ih _ u h

theorem filterUrlsGo_sublist (allowed : List String) :
    ∀ (urls seen : List String),
      (filterUrlsGo allowed urls seen).Sublist (urls.map normalize_url) := by
  intro urls
  induction urls with
  | nil => intro seen; simp [filterUrlsGo]
  | cons v rest ih =>
    intro seen
    rw [filterUrlsGo, List.map_cons]
    split
    · exact List.Sublist.cons₂ _ (ih _)
    · exact List.Sublist.cons _ (ih _)

theorem filterUrlsGo_not_mem_seen (allowed : List String) :
    ∀ (urls seen : List String) (u : String),
      u ∈ filterUrlsGo allowed urls seen → u ∉ seen := by
  intro urls
  induction urls with
  | nil => intro seen u h; simp [filterUrlsGo] at h
  | cons v rest ih =>
    intro seen u h
    rw [filterUrlsGo] at h
    split at h
    · rename_i hcond
      rcases List.mem_cons.mp h with h1 | h1
      · exact h1 ▸ hcond.2
      · intro hs
        exact ih _ u h1 (List.mem_cons_of_mem _ hs)
    · exact ih _ u h

theorem filterUrlsGo_nodup (allowed : List String) :
    ∀ (urls seen : List String), (filterUrlsGo allowed urls seen).Nodup := by
  intro urls
  induction urls with
  | nil => intro seen; simp [filterUrlsGo]
  | cons v rest ih =>
    intro seen
    rw [filterUrlsGo]
    split
    · refine List.nodup_cons.mpr ⟨?_, ih _⟩
      intro hmem
      exact filterUrlsGo_not_mem_seen allowed rest _ _ hmem (List.mem_cons_self _ _)
    · exact ih _

theorem filterUrlsGo_eq_nil (allowed : List String) :
    ∀ (urls seen : List String),
      (∀ u ∈ urls, normalize_url u ∉ allowed) → filterUrlsGo allowed urls seen = [] := by
  intro urls
  induction urls with
  | nil => intro seen _; rfl
  | cons v rest ih =>
    intro seen hdisj
    rw [filterUrlsGo]
    split
    · rename_i hcond
      exact absurd hcond.1 (hdisj v (List.mem_cons_self _ _))
    · exact ih _ (fun u hu => hdisj u (List.mem_cons_of_mem _ hu))

theorem filter_urls_subset (urls allowed : List String) :
    ∀ u ∈ filter_urls urls allowed, u ∈ allowed :=
  fun u h => filterUrlsGo_subset allowed urls [] u h

theorem filter_urls_sublist (urls allowed : List String) :
    (filter_urls urls allowed).Sublist (urls.map normalize_url) :=
  filterUrlsGo_sublist allowed urls []

theorem filter_urls_nodup (urls allowed : List String) :
    (filter_urls urls allowed).Nodup :=
  filterUrlsGo_nodup allowed urls []

theorem filter_urls_eq_nil (urls allowed : List String)
    (h : ∀ u ∈ urls, normalize_url u ∉ allowed) : filter_urls urls allowed = [] :=
  filterUrlsGo_eq_nil allowed urls [] h

/-! ## Lemmas about the single-candidate gate -/

theorem approve_insight_off (minConfidence : Nat) (insight : Option InsightResponse)
    (allowedUrls existingTexts : List String) :
    approve_insight .off minConfidence insight allowedUrls existingTexts = none := by
  cases insight <;> rfl

theorem approve_insight_auto_low (minConfidence : Nat) (ins : InsightResponse)
    (allowedUrls existingTexts : List String) (h : ins.confidence < minConfidence) :
    approve_insight .auto minConfidence (some ins) allowedUrls existingTexts = none := by
  simp [approve_insight, h]

theorem approve_insight_always_eq (minConfidence minConfidence' : Nat)
    (insight : Option InsightResponse) (allowedUrls existingTexts : List String) :
    approve_insight .always minConfidence insight allowedUrls existingTexts
      = approve_insight .always minConfidence' insight allowedUrls existingTexts := by
  cases insight <;> simp [approve_insight]

theorem approve_insight_always_eq_none_iff (minConfidence : Nat) (ins : InsightResponse)
    (allowedUrls existingTexts : List String) :
    approve_insight .always minConfidence (some ins) allowedUrls existingTexts = none
      ↔ pyStrip ins.insight = "" ∨ pyStrip ins.why_unintuitive = ""
        ∨ filter_urls ins.supporting_urls allowedUrls = []
        ∨ is_near_duplicate (pyStrip ins.insight) existingTexts = true := by
  simp only [approve_insight]
  split
  · rename_i hc
    exact absurd hc.1 (by simp)
  · split
    · rename_i hempty
      simp [hempty.elim Or.inl (fun h => Or.inr (Or.inl h))]
    · rename_i hempty
      push_neg at hempty
      split
      · rename_i hurls
        simp [hurls, hempty.1, hempty.2]
      · rename_i hurls
        split
        · rename_i hdup
          simp [hdup, hempty.1, hempty.2]
        · rename_i hdup
          simp [hempty.1, hempty.2, hurls, hdup]

theorem approve_insight_some_inv {mode : InsightsMode} {minConfidence : Nat}
    {insight : Option InsightResponse} {allowedUrls existingTexts : List String}
    {out : NonObviousInsight}
    (h : approve_insight mode minConfidence insight allowedUrls existingTexts = some out) :
    ∃ ins, insight = some ins
      ∧ out.supporting_urls = filter_urls ins.supporting_urls allowedUrls := by
  cases mode <;> cases insight <;> simp only [approve_insight] at h
  case off.none | off.some => exact absurd h (by simp)
  case auto.none | always.none => exact absurd h (by simp)
  all_goals
    rename_i ins
    refine ⟨ins, rfl, ?_⟩
    split at h
    · exact absurd h (by simp)
    · split at h
      · exact absurd h (by simp)
      · split at h
        · exact absurd h (by simp)
        · split at h
          · exact absurd h (by simp)
          · cases h; rfl

theorem approve_insight_mem_allowed {mode : InsightsMode} {minConfidence : Nat}
    {insight : Option InsightResponse} {allowedUrls existingTexts : List String}
    {out : NonObviousInsight}
    (h : approve_insight mode minConfidence insight allowedUrls existingTexts = some out) :
    ∀ u ∈ out.supporting_urls, u ∈ allowedUrls := by
  obtain ⟨ins, _, hurls⟩ := approve_insight_some_inv h
  intro u hu
  rw [hurls] at hu
  exact filter_urls_subset _ _ u hu

theorem approve_insight_none_of_disjoint (mode : InsightsMode) (minConfidence : Nat)
    (ins : InsightResponse) (allowedUrls existingTexts : List String)
    (h : ∀ r ∈ ins.supporting_urls, normalize_url r ∉ allowedUrls) :
    approve_insight mode minConfidence (some ins) allowedUrls existingTexts = none := by
  have hnil : filter_urls ins.supporting_urls allowedUrls = [] := filter_urls_eq_nil _ _ h
  cases mode <;> simp [approve_insight, hnil]

/-! ## Lemmas about the near-duplicate check -/

theorem tokenSet_empty : tokenSet "" = [] := rfl

theorem is_near_duplicate_of_degenerate (cand : String) (texts : List String)
    (h : normalize_text cand = "" ∨ tokenSet (normalize_text cand) = []) :
    is_near_duplicate cand texts = true := by
  rcases h with h | h <;> simp [is_near_duplicate, h]

theorem is_near_duplicate_of_norm_eq (cand t : String)
    (h : normalize_text cand = normalize_text t) :
    is_near_duplicate cand [t] = true := by
  by_cases h1 : normalize_text cand = ""
  · exact is_near_duplicate_of_degenerate _ _ (Or.inl h1)
  · by_cases h2 : tokenSet (normalize_text cand) = []
    · exact is_near_duplicate_of_degenerate _ _ (Or.inr h2)
    · simp [is_near_duplicate, if_neg h1, if_neg h2, List.any_cons, List.any_nil,
        Bool.or_false, ← h, if_pos rfl, h1]

theorem is_near_duplicate_pair_iff (cand t : String)
    (hA : tokenSet (normalize_text cand) ≠ [])
    (hB : tokenSet (normalize_text t) ≠ []) :
    is_near_duplicate cand [t] = true
      ↔ normalize_text cand = normalize_text t
        ∨ 4 * Nat.min (tokenSet (normalize_text cand)).length
              (tokenSet (normalize_text t)).length
            ≤ 5 * interCard (tokenSet (normalize_text cand)) (tokenSet (normalize_text t)) := by
  have h1 : normalize_text cand ≠ "" := fun h => hA (by rw [h]; rfl)
  have h2 : normalize_text t ≠ "" := fun h => hB (by rw [h]; rfl)
  by_cases heq : normalize_text cand = normalize_text t
  · simp [is_near_duplicate_of_norm_eq cand t heq, heq]
  · simp only [is_near_duplicate, if_neg h1, if_neg hA, List.any_cons, List.any_nil,
      Bool.or_false, if_neg h2, if_neg heq, if_neg hB]
    simp [heq]

/-! ## Token pipeline lemmas for texts with no alphanumeric characters -/

theorem mem_splitWordsAux (c : Char) :
    ∀ (cs acc : List Char) (w : List Char),
      w ∈ splitWordsAux cs acc → c ∈ w → c ∈ cs ∨ c ∈ acc := by
  intro cs
  induction cs with
  | nil =>
    intro acc w hw hc
    simp only [splitWordsAux] at hw
    split at hw
    · simp at hw
    · rw [List.mem_singleton] at hw
      subst hw
      exact Or.inr (List.mem_reverse.mp hc)
  | cons d rest ih =>
    intro acc w hw hc
    simp only [splitWordsAux] at hw
    split at hw
    · split at hw
      · rcases ih [] w hw hc with h | h
        · exact Or.inl (List.mem_cons_of_mem _ h)
        · simp at h
      · rcases List.mem_cons.mp hw with h | h
        · subst h
          exact Or.inr (List.mem_reverse.mp hc)
        · rcases ih [] w h hc with h1 | h1
          · exact Or.inl (List.mem_cons_of_mem _ h1)
          · simp at h1
    · rcases ih (d :: acc) w hw hc with h | h
      · exact Or.inl (List.mem_cons_of_mem _ h)
      · rcases List.mem_cons.mp h with h1 | h1
        · exact Or.inl (h1 ▸ List.mem_cons_self _ _)
        · exact Or.inr h1

theorem mem_splitWords {c : Char} {cs : List Char} {w : List Char}
    (hw : w ∈ splitWords cs) (hc : c ∈ w) : c ∈ cs := by
  rcases mem_splitWordsAux c cs [] w hw hc with h | h
  · exact h
  · simp at h

theorem mem_joinWords {c : Char} :
    ∀ {ws : List (List Char)}, c ∈ joinWords ws → (∃ w ∈ ws, c ∈ w) ∨ c = ' ' := by
  intro ws
  induction ws with
  | nil => intro h; simp [joinWords] at h
  | cons w rest ih =>
    intro h
    cases rest with
    | nil =>
      simp only [joinWords] at h
      exact Or.inl ⟨w, List.mem_singleton_self _, h⟩
    | cons w2 rest2 =>
      simp only [joinWords] at h
      rcases List.mem_append.mp h with h1 | h1
      · exact Or.inl ⟨w, List.mem_cons_self _ _, h1⟩
      · rcases List.mem_cons.mp h1 with h2 | h2
        · exact Or.inr h2
        · rcases ih h2 with ⟨w3, hw3, hc3⟩ | h3
          · exact Or.inl ⟨w3, List.mem_cons_of_mem _ hw3, hc3⟩
          · exact Or.inr h3

theorem tokenRunsAux_eq_nil :
    ∀ (cs : List Char), (∀ c ∈ cs, isTokenChar c = false) → tokenRunsAux cs [] = [] := by
  intro cs
  induction cs with
  | nil => intro _; rfl
  | cons d rest ih =>
    intro h
    simp only [tokenRunsAux, h d (List.mem_cons_self _ _)]
    simpa using ih (fun c hc => h c (List.mem_cons_of_mem _ hc))

theorem tokenSet_eq_nil_of_no_token (s : String)
    (h : ∀ c ∈ s.data, isTokenChar c = false) : tokenSet s = [] := by
  unfold tokenSet tokenRuns
  rw [tokenRunsAux_eq_nil s.data h]
  rfl

theorem normalize_text_no_token (s : String)
    (h : ∀ c ∈ s.data, isTokenChar (Char.toLower c) = false) :
    tokenSet (normalize_text s) = [] := by
  apply tokenSet_eq_nil_of_no_token
  intro c hc
  rcases mem_joinWords hc with ⟨w, hw, hcw⟩ | hsp
  · have hmem : c ∈ s.data.map Char.toLower := mem_splitWords hw hcw
    rcases List.mem_map.mp hmem with ⟨d, hd, rfl⟩
    exact h d hd
  · subst hsp
    decide

theorem mem_pyStrip {c : Char} {s : String} (h : c ∈ (pyStrip s).data) : c ∈ s.data := by
  simp only [pyStrip, dropTrailing] at h
  have h1 := List.mem_reverse.mp h
  have h2 := (List.dropWhile_sublist _).subset h1
  have h3 := List.mem_reverse.mp h2
  exact (List.dropWhile_sublist _).subset h3

theorem approve_insight_none_of_no_token (mode : InsightsMode) (minConfidence : Nat)
    (ins : InsightResponse) (allowedUrls existingTexts : List String)
    (h : ∀ c ∈ ins.insight.data, isTokenChar (Char.toLower c) = false) :
    approve_insight mode minConfidence (some ins) allowedUrls existingTexts = none := by
  have hstrip : ∀ c ∈ (pyStrip ins.insight).data, isTokenChar (Char.toLower c) = false :=
    fun c hc => h c (mem_pyStrip hc)
  have hdup : is_near_duplicate (pyStrip ins.insight) existingTexts = true :=
    is_near_duplicate_of_degenerate _ _
      (Or.inr (normalize_text_no_token (pyStrip ins.insight) hstrip))
  cases mode <;> simp [approve_insight, hdup]

/-! ## Lemmas about the batch gate -/

theorem approveInsightsGo_cons_none {mode : InsightsMode} {minConfidence : Nat}
    {allowedUrls existingTexts : List String} {maxCount : Nat}
    {c : InsightResponse} {rest : List InsightResponse}
    {approved : List NonObviousInsight}
    (hcall : approve_insight mode minConfidence (some c) allowedUrls
      (existingTexts ++ approved.map (fun i => i.insight)) = none) :
    approveInsightsGo mode minConfidence allowedUrls existingTexts maxCount
        (c :: rest) approved
      = approveInsightsGo mode minConfidence allowedUrls existingTexts maxCount
        rest approved := by
  rw [approveInsightsGo, hcall]

theorem approveInsightsGo_cons_some {mode : InsightsMode} {minConfidence : Nat}
    {allowedUrls existingTexts : List String} {maxCount : Nat}
    {c : InsightResponse} {rest : List InsightResponse}
    {approved : List NonObviousInsight} {f : NonObviousInsight}
    (hcall : approve_insight mode minConfidence (some c) allowedUrls
      (existingTexts ++ approved.map (fun i => i.insight)) = some f) :
    approveInsightsGo mode minConfidence allowedUrls existingTexts maxCount
        (c :: rest) approved
      = if maxCount ≤ (approved ++ [f]).length then approved ++ [f]
        else approveInsightsGo mode minConfidence allowedUrls existingTexts maxCount
          rest (approved ++ [f]) := by
  rw [approveInsightsGo, hcall]

theorem approveInsightsGo_invariant (P : NonObviousInsight → Prop)
    (mode : InsightsMode) (minConfidence : Nat)
    (allowedUrls existingTexts : List String) (maxCount : Nat)
    (hstep : ∀ (c : InsightResponse) (ctx : List String) (out : NonObviousInsight),
      approve_insight mode minConfidence (some c) allowedUrls ctx = some out → P out) :
    ∀ (cands : List InsightResponse) (approved : List NonObviousInsight),
      (∀ x ∈ approved, P x) →
      ∀ x ∈ approveInsightsGo mode minConfidence allowedUrls existingTexts maxCount
        cands approved, P x := by
  intro cands
  induction cands with
  | nil => intro approved hacc x hx; exact hacc x hx
  | cons c rest ih =>
    intro approved hacc x hx
    rcases hcall : approve_insight mode minConfidence (some c) allowedUrls
        (existingTexts ++ approved.map (fun i => i.insight)) with _ | f
    · rw [approveInsightsGo_cons_none hcall] at hx
      exact ih approved hacc x hx
    · rw [approveInsightsGo_cons_some hcall] at hx
      have hacc2 : ∀ y ∈ approved ++ [f], P y := by
        intro y hy
        rcases List.mem_append.mp hy with h | h
        · exact hacc y h
        · rw [List.mem_singleton] at h
          exact h ▸ hstep c _ f hcall
      split at hx
      · exact hacc2 x hx
      · exact ih _ hacc2 x hx

theorem approveInsightsGo_length_le (mode : InsightsMode) (minConfidence : Nat)
    (allowedUrls existingTexts : List String) (maxCount : Nat) :
    ∀ (cands : List InsightResponse) (approved : List NonObviousInsight),
      approved.length < maxCount →
      (approveInsightsGo mode minConfidence allowedUrls existingTexts maxCount
        cands approved).length ≤ maxCount := by
  intro cands
  induction cands with
  | nil => intro approved h; rw [approveInsightsGo]; omega
  | cons c rest ih =>
    intro approved h
    rcases hcall : approve_insight mode minConfidence (some c) allowedUrls
        (existingTexts ++ approved.map (fun i => i.insight)) with _ | f
    · rw [approveInsightsGo_cons_none hcall]
      exact ih approved h
    · rw [approveInsightsGo_cons_some hcall]
      split
      · simp only [List.length_append, List.length_singleton]
        omega
      · rename_i hlt
        apply ih
        simp only [List.length_append, List.length_singleton] at hlt ⊢
        omega

theorem approveInsightsSpecGo_of_full (mode : InsightsMode) (minConfidence : Nat)
    (allowedUrls existingTexts : List String) (maxCount : Nat) :
    ∀ (cands : List InsightResponse) (approved : List NonObviousInsight),
      maxCount ≤ approved.length →
      approveInsightsSpecGo mode minConfidence allowedUrls existingTexts maxCount
        cands approved = approved := by
  intro cands
  cases cands with
  | nil => intro approved _; rfl
  | cons c rest => intro approved h; rw [approveInsightsSpecGo, if_pos h]

theorem approveInsightsSpecGo_cons_none {mode : InsightsMode} {minConfidence : Nat}
    {allowedUrls existingTexts : List String} {maxCount : Nat}
    {c : InsightResponse} {rest : List InsightResponse}
    {approved : List NonObviousInsight}
    (hlt : ¬ maxCount ≤ approved.length)
    (hcall : approve_insight mode minConfidence (some c) allowedUrls
      (existingTexts ++ approved.map (fun i => i.insight)) = none) :
    approveInsightsSpecGo mode minConfidence allowedUrls existingTexts maxCount
        (c :: rest) approved
      = approveInsightsSpecGo mode minConfidence allowedUrls existingTexts maxCount
        rest approved := by
  rw [approveInsightsSpecGo, if_neg hlt, hcall]

theorem approveInsightsSpecGo_cons_some {mode : InsightsMode} {minConfidence : Nat}
    {allowedUrls existingTexts : List String} {maxCount : Nat}
    {c : InsightResponse} {rest : List InsightResponse}
    {approved : List NonObviousInsight} {f : NonObviousInsight}
    (hlt : ¬ maxCount ≤ approved.length)
    (hcall : approve_insight mode minConfidence (some c) allowedUrls
      (existingTexts ++ approved.map (fun i => i.insight)) = some f) :
    approveInsightsSpecGo mode minConfidence allowedUrls existingTexts maxCount
        (c :: rest) approved
      = approveInsightsSpecGo mode minConfidence allowedUrls existingTexts maxCount
        rest (approved ++ [f]) := by
  rw [approveInsightsSpecGo, if_neg hlt, hcall]

theorem approveInsightsGo_eq_specGo (mode : InsightsMode) (minConfidence : Nat)
    (allowedUrls existingTexts : List String) (maxCount : Nat) :
    ∀ (cands : List InsightResponse) (approved : List NonObviousInsight),
      approved.length < maxCount →
      approveInsightsGo mode minConfidence allowedUrls existingTexts maxCount
          cands approved
        = approveInsightsSpecGo mode minConfidence allowedUrls existingTexts maxCount
          cands approved := by
  intro cands
  induction cands with
  | nil => intro approved _; rfl
  | cons c rest ih =>
    intro approved h
    rcases hcall : approve_insight mode minConfidence (some c) allowedUrls
        (existingTexts ++ approved.map (fun i => i.insight)) with _ | f
    · rw [approveInsightsGo_cons_none hcall,
        approveInsightsSpecGo_cons_none (by omega) hcall]
      exact ih approved h
    · rw [approveInsightsGo_cons_some hcall,
        approveInsightsSpecGo_cons_some (by omega) hcall]
      split
      · rename_i hfull
        rw [approveInsightsSpecGo_of_full mode minConfidence allowedUrls existingTexts
          maxCount rest (approved ++ [f]) (by simpa using hfull)]
      · rename_i hfull
        apply ih
        simp only [List.length_append, List.length_singleton] at hfull ⊢
        omega

theorem approve_insights_eq_spec (mode : InsightsMode) (minConfidence : Nat)
    (insights : List InsightResponse) (allowedUrls existingTexts : List String)
    (maxCount : Nat) (h : 1 ≤ maxCount) :
    approve_insights mode minConfidence insights allowedUrls existingTexts maxCount
      = approve_insights_spec mode minConfidence insights allowedUrls existingTexts maxCount :=
  approveInsightsGo_eq_specGo mode minConfidence allowedUrls existingTexts maxCount
    insights [] (by simpa using h)

theorem approve_insights_length_le (mode : InsightsMode) (minConfidence : Nat)
    (insights : List InsightResponse) (allowedUrls existingTexts : List String)
    (maxCount : Nat) (h : 1 ≤ maxCount) :
    (approve_insights mode minConfidence insights allowedUrls existingTexts maxCount).length
      ≤ maxCount :=
  approveInsightsGo_length_le mode minConfidence allowedUrls existingTexts maxCount
    insights [] (by simpa using h)

theorem approve_insights_mem_allowed (mode : InsightsMode) (minConfidence : Nat)
    (insights : List InsightResponse) (allowedUrls existingTexts : List String)
    (maxCount : Nat) :
    ∀ x ∈ approve_insights mode minConfidence insights allowedUrls existingTexts maxCount,
      ∀ u ∈ x.supporting_urls, u ∈ allowedUrls := by
  intro x hx
  exact approveInsightsGo_invariant (fun out => ∀ u ∈ out.supporting_urls, u ∈ allowedUrls)
    mode minConfidence allowedUrls existingTexts maxCount
    (fun c ctx out hout => approve_insight_mem_allowed hout)
    insights [] (by simp) x hx

/-! ## Partition and sorting lemmas -/

theorem join_filter_perm {α : Type} (keyOf : α → String) :
    ∀ (names : List String) (l : List α), names.Nodup →
      (∀ a ∈ l, keyOf a ∈ names) →
      ((names.map (fun n => l.filter (fun a => keyOf a == n))).flatten).Perm l := by
  intro names
  induction names with
  | nil =>
    intro l _ hcov
    cases l with
    | nil => simp
    | cons a t => exact absurd (hcov a (List.mem_cons_self _ _)) (by simp)
  | cons n rest ih =>
    intro l hnd hcov
    rw [List.map_cons, List.flatten_cons]
    have hn : n ∉ rest := (List.nodup_cons.mp hnd).1
    have hnd2 : rest.Nodup := (List.nodup_cons.mp hnd).2
    have hmapeq : rest.map (fun m => l.filter (fun a => keyOf a == m))
        = rest.map (fun m => (l.filter (fun a => !(keyOf a == n))).filter
            (fun a => keyOf a == m)) := by
      apply List.map_congr_left
      intro m hm
      rw [List.filter_filter]
      apply List.filter_congr
      intro x _
      by_cases hx : keyOf x = m
      · have hmn : m ≠ n := fun h => hn (h ▸ hm)
        simp [hx, hmn]
      · simp [hx]
    rw [hmapeq]
    have hcov2 : ∀ a ∈ l.filter (fun a => !(keyOf a == n)), keyOf a ∈ rest := by
      intro a ha
      have h1 := List.mem_filter.mp ha
      rcases List.mem_cons.mp (hcov a h1.1) with h3 | h3
      · exfalso
        have := h1.2
        simp [h3] at this
      · exact h3
    have hperm2 := ih (l.filter (fun a => !(keyOf a == n))) hnd2 hcov2
    exact (hperm2.append_left (l.filter (fun a => keyOf a == n))).trans
      (List.filter_append_perm _ l)

theorem charListLe_total : ∀ (as bs : List Char),
    charListLe as bs = true ∨ charListLe bs as = true := by
  intro as
  induction as with
  | nil => intro bs; exact Or.inl rfl
  | cons a as ih =>
    intro bs
    cases bs with
    | nil => exact Or.inr rfl
    | cons b bs =>
      by_cases hab : a < b
      · exact Or.inl (by simp [charListLe, hab])
      · by_cases hba : b < a
        · exact Or.inr (by simp [charListLe, hba])
        · rcases ih bs with h | h
          · exact Or.inl (by simp [charListLe, hab, hba, h])
          · exact Or.inr (by simp [charListLe, hab, hba, h])

theorem charListLe_trans : ∀ (as bs cs : List Char),
    charListLe as bs = true → charListLe bs cs = true → charListLe as cs = true := by
  intro as
  induction as with
  | nil => intro bs cs _ _; rfl
  | cons a as ih =>
    intro bs cs h1 h2
    cases bs with
    | nil => simp [charListLe] at h1
    | cons b bs =>
      cases cs with
      | nil => simp [charListLe] at h2
      | cons c cs =>
        by_cases hab : a < b
        · by_cases hbc : b < c
          · simp [charListLe, lt_trans hab hbc]
          · by_cases hcb : c < b
            · simp [charListLe, hbc, hcb] at h2
            · have hbceq : b = c := le_antisymm (not_lt.mp hcb) (not_lt.mp hbc)
              simp [charListLe, hbceq ▸ hab]
        · by_cases hba : b < a
          · simp [charListLe, hab, hba] at h1
          · have habeq : a = b := le_antisymm (not_lt.mp hba) (not_lt.mp hab)
            subst habeq
            simp only [charListLe, if_neg hab, if_neg hba] at h1
            by_cases hbc : a < c
            · simp [charListLe, hbc]
            · by_cases hcb : c < a
              · simp [charListLe, hbc, hcb] at h2
              · simp only [charListLe, if_neg hbc, if_neg hcb] at h2 ⊢
                exact ih bs cs h1 h2

theorem charListLe_lt_of_ne : ∀ (as bs : List Char),
    charListLe as bs = true → as ≠ bs → as.lt bs := by
  intro as
  induction as with
  | nil =>
    intro bs _ hne
    cases bs with
    | nil => exact absurd rfl hne
    | cons b bs => exact List.lt.nil b bs
  | cons a as ih =>
    intro bs h hne
    cases bs with
    | nil => simp [charListLe] at h
    | cons b bs =>
      by_cases hab : a < b
      · exact List.lt.head as bs hab
      · by_cases hba : b < a
        · simp [charListLe, hab, hba] at h
        · have habeq : a = b := le_antisymm (not_lt.mp hba) (not_lt.mp hab)
          subst habeq
          simp only [charListLe, if_neg hab, if_neg hba] at h
          refine List.lt.tail hab hba (ih bs h ?_)
          intro heq
          exact hne (heq ▸ rfl)

theorem pyStrLe_lt {a b : String} (h : pyStrLe a b = true) (hne : a ≠ b) : a < b := by
  rw [String.lt_iff_toList_lt]
  exact (List.lt_iff_lex_lt a.data b.data).mp
    (charListLe_lt_of_ne a.data b.data h (fun hd => hne (String.ext hd)))

theorem category_names_perm (articles : List Article) :
    (category_names articles).Perm ((articles.map (fun a => a.category)).dedup) := by
  unfold category_names
  exact List.perm_insertionSort (fun a b => pyStrLe a b = true)
    ((articles.map (fun a => a.category)).dedup)

theorem category_names_nodup (articles : List Article) :
    (category_names articles).Nodup :=
  (category_names_perm articles).symm.nodup
    (List.nodup_dedup (articles.map (fun a => a.category)))

theorem mem_category_names {n : String} {articles : List Article} :
    n ∈ category_names articles ↔ ∃ a ∈ articles, a.category = n := by
  rw [(category_names_perm articles).mem_iff, List.mem_dedup, List.mem_map]

theorem category_names_sorted (articles : List Article) :
    (category_names articles).Pairwise (fun a b => a < b) := by
  have hle : (category_names articles).Pairwise (fun a b => pyStrLe a b = true) := by
    unfold category_names
    exact @List.sorted_insertionSort String (fun a b => pyStrLe a b = true) _
      ⟨fun a b => charListLe_total a.data b.data⟩
      ⟨fun a b c => charListLe_trans a.data b.data c.data⟩
      ((articles.map (fun a => a.category)).dedup)
  have hne : (category_names articles).Pairwise (fun a b => a ≠ b) :=
    category_names_nodup articles
  exact hle.imp₂ (fun a b h1 h2 => pyStrLe_lt h1 h2) hne

/-! ## Field lemmas of the category builder -/

theorem build_category_digest_name (mode : InsightsMode) (minConfidence : Nat)
    (categoryName : String) (articles : List Article)
    (resp : Option CategorySynthesisResponse) :
    (build_category_digest mode minConfidence categoryName articles resp).name
      = categoryName := by
  unfold build_category_digest
  split
  · cases resp <;> rfl
  · split <;> rfl

theorem build_category_digest_articles (mode : InsightsMode) (minConfidence : Nat)
    (categoryName : String) (articles : List Article)
    (resp : Option CategorySynthesisResponse) :
    (build_category_digest mode minConfidence categoryName articles resp).articles
      = articles := by
  unfold build_category_digest
  split
  · cases resp <;> rfl
  · split <;> rfl

theorem build_category_digest_insight_mem_allowed {mode : InsightsMode}
    {minConfidence : Nat} {categoryName : String} {articles : List Article}
    {resp : Option CategorySynthesisResponse} {i : NonObviousInsight}
    (h : (build_category_digest mode minConfidence categoryName articles resp).non_obvious_insight
      = some i) :
    ∀ u ∈ i.supporting_urls, u ∈ articles.map (fun a => normalize_url a.url) := by
  unfold build_category_digest at h
  split at h
  · cases resp with
    | none => exact absurd h (by simp)
    | some parsed => exact approve_insight_mem_allowed h
  · split at h
    · exact absurd h (by simp)
    · exact absurd h (by simp)

/-! ## Lemmas about the assembled digest -/

theorem category_digests_of_names (mode : InsightsMode) (minConfidence : Nat)
    (oracle : LLMOracle) (articles : List Article) :
    (category_digests_of mode minConfidence oracle articles).map (fun d => d.name)
      = category_names articles := by
  unfold category_digests_of
  rw [List.map_map]
  conv_rhs => rw [← List.map_id (category_names articles)]
  apply List.map_congr_left
  intro n _
  exact build_category_digest_name mode minConfidence n _ _

theorem mem_category_digests_of {mode : InsightsMode} {minConfidence : Nat}
    {oracle : LLMOracle} {articles : List Article} {cd : CategoryDigest} :
    cd ∈ category_digests_of mode minConfidence oracle articles
      ↔ ∃ n ∈ category_names articles,
          build_category_digest mode minConfidence n
            (articles.filter (fun a => a.category == n))
            (oracle.categoryResp n (articles.filter (fun a => a.category == n))) = cd := by
  unfold category_digests_of
  rw [List.mem_map]

theorem category_digests_of_join_perm (mode : InsightsMode) (minConfidence : Nat)
    (oracle : LLMOracle) (articles : List Article) :
    (((category_digests_of mode minConfidence oracle articles).map
      (fun d => d.articles)).flatten).Perm articles := by
  unfold category_digests_of
  rw [List.map_map]
  have heq : (category_names articles).map
        ((fun d => d.articles) ∘ fun n =>
          build_category_digest mode minConfidence n
            (articles.filter (fun a => a.category == n))
            (oracle.categoryResp n (articles.filter (fun a => a.category == n))))
      = (category_names articles).map
          (fun n => articles.filter (fun a => a.category == n)) := by
    apply List.map_congr_left
    intro n _
    exact build_category_digest_articles mode minConfidence n _ _
  rw [heq]
  exact join_filter_perm (fun a => a.category) (category_names articles) articles
    (category_names_nodup articles) (fun a ha => mem_category_names.mpr ⟨a, ha, rfl⟩)

theorem category_digests_of_url_perm (mode : InsightsMode) (minConfidence : Nat)
    (oracle : LLMOracle) (articles : List Article) :
    (((category_digests_of mode minConfidence oracle articles).map
      (fun d => d.articles.map (fun a => normalize_url a.url))).flatten).Perm
      (articles.map (fun a => normalize_url a.url)) := by
  have h1 := category_digests_of_join_perm mode minConfidence oracle articles
  have h2 : ((category_digests_of mode minConfidence oracle articles).map
        (fun d => d.articles.map (fun a => normalize_url a.url)))
      = ((category_digests_of mode minConfidence oracle articles).map
          (fun d => d.articles)).map (List.map (fun a => normalize_url a.url)) := by
    rw [List.map_map]
    rfl
  rw [h2, ← List.map_flatten]
  exact h1.map _

/-! ## Digest-level helper lemmas -/

theorem build_category_digest_fallback (mode : InsightsMode) (minConfidence : Nat)
    (categoryName : String) (articles : List Article) (h : 1 < articles.length) :
    build_category_digest mode minConfidence categoryName articles none
      = { name := categoryName, article_count := articles.length, articles := articles,
          synthesis := fallback_synthesis categoryName articles.length,
          top_takeaways := (articles.take 3).filterMap (fun a => a.key_takeaways.head?),
          non_obvious_insight := none } := by
  unfold build_category_digest
  rw [if_pos h]

theorem build_category_digest_single (mode : InsightsMode) (minConfidence : Nat)
    (categoryName : String) (a : Article) (resp : Option CategorySynthesisResponse) :
    build_category_digest mode minConfidence categoryName [a] resp
      = { name := categoryName, article_count := 1, articles := [a],
          synthesis := orIfBlank a.summary ("One article from " ++ a.feed_name ++ "."),
          top_takeaways := a.key_takeaways.take 3,
          non_obvious_insight := none } := by
  unfold build_category_digest
  rw [if_neg (by simp)]
  rfl

theorem synthesize_overall_resp_none (mode : InsightsMode) (minConfidence maxCount : Nat)
    (categoryDigests : List CategoryDigest) :
    synthesize_overall mode minConfidence maxCount categoryDigests none = ([], [], []) := by
  cases categoryDigests <;> rfl

theorem build_digest_categories (mode : InsightsMode) (minConfidence maxCount : Nat)
    (oracle : LLMOracle) (articles : List Article) :
    (build_digest mode minConfidence maxCount oracle articles).categories
      = category_digests_of mode minConfidence oracle articles := rfl

theorem build_digest_overall_themes (mode : InsightsMode) (minConfidence maxCount : Nat)
    (oracle : LLMOracle) (articles : List Article) :
    (build_digest mode minConfidence maxCount oracle articles).overall_themes
      = (synthesize_overall mode minConfidence maxCount
          (category_digests_of mode minConfidence oracle articles)
          (oracle.overallResp (category_digests_of mode minConfidence oracle articles))).1 :=
  rfl

theorem build_digest_must_read (mode : InsightsMode) (minConfidence maxCount : Nat)
    (oracle : LLMOracle) (articles : List Article) :
    (build_digest mode minConfidence maxCount oracle articles).must_read
      = (synthesize_overall mode minConfidence maxCount
          (category_digests_of mode minConfidence oracle articles)
          (oracle.overallResp (category_digests_of mode minConfidence oracle articles))).2.1 :=
  rfl

theorem build_digest_insights (mode : InsightsMode) (minConfidence maxCount : Nat)
    (oracle : LLMOracle) (articles : List Article) :
    (build_digest mode minConfidence maxCount oracle articles).non_obvious_insights
      = (synthesize_overall mode minConfidence maxCount
          (category_digests_of mode minConfidence oracle articles)
          (oracle.overallResp (category_digests_of mode minConfidence oracle articles))).2.2 :=
  rfl

theorem synthesize_overall_insights_length_le (mode : InsightsMode)
    (minConfidence maxCount : Nat) (h : 1 ≤ maxCount)
    (categoryDigests : List CategoryDigest) (resp : Option OverallSynthesisResponse) :
    (synthesize_overall mode minConfidence maxCount categoryDigests resp).2.2.length
      ≤ maxCount := by
  cases categoryDigests with
  | nil => simp [synthesize_overall]
  | cons c t =>
    cases resp with
    | none => simp [synthesize_overall]
    | some parsed =>
      simp only [synthesize_overall]
      exact approve_insights_length_le mode minConfidence _ _ _ maxCount h

theorem synthesize_overall_insights_mem_allowed (mode : InsightsMode)
    (minConfidence maxCount : Nat) (categoryDigests : List CategoryDigest)
    (resp : Option OverallSynthesisResponse) :
    ∀ i ∈ (synthesize_overall mode minConfidence maxCount categoryDigests resp).2.2,
      ∀ u ∈ i.supporting_urls,
        u ∈ (categoryDigests.map
          (fun d => d.articles.map (fun a => normalize_url a.url))).flatten := by
  cases categoryDigests with
  | nil => simp [synthesize_overall]
  | cons c t =>
    cases resp with
    | none => simp [synthesize_overall]
    | some parsed =>
      simp only [synthesize_overall]
      exact approve_insights_mem_allowed mode minConfidence _ _ _ maxCount

theorem synthesize_overall_must_read (mode : InsightsMode)
    (minConfidence maxCount : Nat) (categoryDigests : List CategoryDigest)
    (parsed : OverallSynthesisResponse) :
    (synthesize_overall mode minConfidence maxCount categoryDigests (some parsed)).2.1.length ≤ 3
    ∧ (synthesize_overall mode minConfidence maxCount categoryDigests (some parsed)).2.1.Nodup
    ∧ (∀ u ∈ (synthesize_overall mode minConfidence maxCount categoryDigests
          (some parsed)).2.1,
        u ∈ (categoryDigests.map
          (fun d => d.articles.map (fun a => normalize_url a.url))).flatten)
    ∧ (synthesize_overall mode minConfidence maxCount categoryDigests
        (some parsed)).2.1.Sublist (parsed.must_read_overall.map normalize_url) := by
  cases categoryDigests with
  | nil =>
    refine ⟨by simp [synthesize_overall], by simp [synthesize_overall],
      by simp [synthesize_overall], ?_⟩
    simp only [synthesize_overall]
    exact List.nil_sublist _
  | cons c t =>
    simp only [synthesize_overall]
    refine ⟨List.length_take_le _ _, ?_, ?_, ?_⟩
    · exact (List.take_sublist 3 _).nodup (filter_urls_nodup _ _)
    · intro u hu
      exact filter_urls_subset _ _ u ((List.take_sublist 3 _).subset hu)
    · exact (List.take_sublist 3 _).trans (filter_urls_sublist _ _)

/-! ## Claim theorems -/

/-- C1: every approved non-obvious insight, whether attached to a category
digest or to the overall digest, only carries supporting URLs that belong to
the normalized URL set of the articles that were inputs to the synthesis
call that produced it; and a candidate whose supporting URLs have empty
normalized intersection with the allowed set is rejected by the gate. -/
theorem c1_provenance_invariant (mode : InsightsMode) (minConfidence maxCount : Nat)
    (oracle : LLMOracle) (articles : List Article) :
    (∀ cd ∈ (build_digest mode minConfidence maxCount oracle articles).categories,
      ∀ i : NonObviousInsight, cd.non_obvious_insight = some i →
        ∀ u ∈ i.supporting_urls, u ∈ cd.articles.map (fun a => normalize_url a.url))
    ∧ (∀ i ∈ (build_digest mode minConfidence maxCount oracle articles).non_obvious_insights,
        ∀ u ∈ i.supporting_urls, u ∈ articles.map (fun a => normalize_url a.url))
    ∧ (∀ (m : InsightsMode) (mc : Nat) (ins : InsightResponse)
          (allowedUrls existingTexts : List String),
        (∀ r ∈ ins.supporting_urls, normalize_url r ∉ allowedUrls) →
        approve_insight m mc (some ins) allowedUrls existingTexts = none) := by
  refine ⟨?_, ?_, fun m mc ins al ex h => approve_insight_none_of_disjoint m mc ins al ex h⟩
  · intro cd hcd i hi u hu
    rw [build_digest_categories] at hcd
    rcases mem_category_digests_of.mp hcd with ⟨n, hn, heq⟩
    subst heq
    rw [build_category_digest_articles]
    exact build_category_digest_insight_mem_allowed hi u hu
  · intro i hi u hu
    rw [build_digest_insights] at hi
    have hmem := synthesize_overall_insights_mem_allowed mode minConfidence maxCount
      (category_digests_of mode minConfidence oracle articles)
      (oracle.overallResp (category_digests_of mode minConfidence oracle articles))
      i hi u hu
    exact (category_digests_of_url_perm mode minConfidence oracle articles).mem_iff.mp hmem

/-- C1 witness: in the fixture digest the approved Tech insight cites the
normalized first article URL, which the theorem places inside the Tech
category URL set; and a candidate with no allowed URL is rejected. -/
theorem c1_provenance_invariant_witness :
    "https://e.example/a"
      ∈ (wDigest.categories.getD 1 emptyCd).articles.map (fun a => normalize_url a.url)
    ∧ approve_insight .auto 4 (some wCatIns) ["https://other.example/z"] [] = none := by
  constructor
  · exact (c1_provenance_invariant .always 4 2 wOracle wArticles).1
      (wDigest.categories.getD 1 emptyCd) (by decide)
      { insight := "novel alpha beta", why_unintuitive := "because gamma",
        confidence := 5, supporting_urls := ["https://e.example/a"] }
      (by decide) "https://e.example/a" (by decide)
  · exact (c1_provenance_invariant .always 4 2 wOracle wArticles).2.2
      .auto 4 wCatIns ["https://other.example/z"] [] (by decide)

/-- C2: evaluated at the input of the failing test
`tests/test_analyze.py::test_groups_articles_by_category`, the source
`build_digest` yields only a `DailyDigest` record (as embedded here); the
function computes no token totals, while its tests and its caller
`run_analysis` unpack a `(digest, input_tokens, output_tokens)` triple. -/
theorem c2_build_digest_returns_digest_only :
    (build_digest .auto 4 2 c2Oracle [c2TechArticle, c2BizArticle]).total_articles = 2
    ∧ (build_digest .auto 4 2 c2Oracle [c2TechArticle, c2BizArticle]).categories.map
        (fun d => d.name) = ["Business", "Technology"]
    ∧ (build_digest .auto 4 2 c2Oracle [c2TechArticle, c2BizArticle]).total_feeds = 2 := by
  decide

/-- C3: the category digests strictly partition the input articles — the
concatenation of their article lists is a permutation of the input, every
article sits in the digest named by its category, the digest names are
strictly sorted lexicographically, and each input article lies in exactly
one category digest. -/
theorem c3_partition_and_sorted (mode : InsightsMode) (minConfidence maxCount : Nat)
    (oracle : LLMOracle) (articles : List Article) :
    ((((build_digest mode minConfidence maxCount oracle articles).categories).map
      (fun d => d.articles)).flatten).Perm articles
    ∧ (∀ cd ∈ (build_digest mode minConfidence maxCount oracle articles).categories,
        ∀ a ∈ cd.articles, a.category = cd.name)
    ∧ (((build_digest mode minConfidence maxCount oracle articles).categories).map
        (fun d => d.name)).Pairwise (fun x y => x < y)
    ∧ ∀ a ∈ articles, ∃! cd,
        cd ∈ (build_digest mode minConfidence maxCount oracle articles).categories
        ∧ a ∈ cd.articles := by
  rw [build_digest_categories]
  refine ⟨category_digests_of_join_perm mode minConfidence oracle articles, ?_, ?_, ?_⟩
  · intro cd hcd a ha
    rcases mem_category_digests_of.mp hcd with ⟨n, hn, heq⟩
    subst heq
    rw [build_category_digest_articles] at ha
    rw [build_category_digest_name]
    exact eq_of_beq (List.mem_filter.mp ha).2
  · rw [category_digests_of_names]
    exact category_names_sorted articles
  · intro a ha
    refine ⟨build_category_digest mode minConfidence a.category
      (articles.filter (fun x => x.category == a.category))
      (oracle.categoryResp a.category
        (articles.filter (fun x => x.category == a.category))), ⟨?_, ?_⟩, ?_⟩
    · exact mem_category_digests_of.mpr
        ⟨a.category, mem_category_names.mpr ⟨a, ha, rfl⟩, rfl⟩
    · rw [build_category_digest_articles]
      exact List.mem_filter.mpr ⟨ha, by simp⟩
    · intro cd ⟨hcd, hain⟩
      rcases mem_category_digests_of.mp hcd with ⟨n, hn, heq⟩
      subst heq
      rw [build_category_digest_articles] at hain
      have hcat : a.category = n := eq_of_beq (List.mem_filter.mp hain).2
      subst hcat
      rfl

/-- C3 witness: for the fixture input, the category article lists
concatenate to a permutation of the input, and the fixture article indeed
carries the name of the digest that holds it. -/
theorem c3_partition_and_sorted_witness :
    (((wDigest.categories).map (fun d => d.articles)).flatten).Perm wArticles
    ∧ wTech1.category = (wDigest.categories.getD 1 emptyCd).name := by
  constructor
  · exact (c3_partition_and_sorted .always 4 2 wOracle wArticles).1
  · exact (c3_partition_and_sorted .always 4 2 wOracle wArticles).2.1
      (wDigest.categories.getD 1 emptyCd) (by decide) wTech1 (by decide)

/-- C4 counterexample: with `max_insights_per_digest = 0` the batch gate
still approves one candidate, because the cap is checked only after an
approval; the claimed bound `length ≤ max_insights_per_digest` fails at 0. -/
theorem c4_counterexample :
    (approve_insights .always 4 [c4Candidate] ["https://a.example/x"] [] 0).length = 1
    ∧ ¬ ((approve_insights .always 4 [c4Candidate] ["https://a.example/x"] [] 0).length
        ≤ 0) := by
  decide

/-- C4 (amended): for every cap `max_insights_per_digest ≥ 1` the batch gate
equals the specified sequential process (duplicate checks against the
pre-existing texts plus previously approved insights, stop at the cap), its
result has length at most the cap, and so has the digest insight list; when
the cap is 0 the code can still approve one insight (see the
counterexample), because the cap check runs only after an approval. -/
theorem c4_batch_gate_cap (mode : InsightsMode) (minConfidence : Nat)
    (insights : List InsightResponse) (allowedUrls existingTexts : List String)
    (maxCount : Nat) (h : 1 ≤ maxCount) :
    approve_insights mode minConfidence insights allowedUrls existingTexts maxCount
      = approve_insights_spec mode minConfidence insights allowedUrls existingTexts maxCount
    ∧ (approve_insights mode minConfidence insights allowedUrls existingTexts
        maxCount).length ≤ maxCount
    ∧ ∀ (oracle : LLMOracle) (articles : List Article),
        (build_digest mode minConfidence maxCount oracle
          articles).non_obvious_insights.length ≤ maxCount := by
  refine ⟨approve_insights_eq_spec mode minConfidence insights allowedUrls existingTexts
    maxCount h, approve_insights_length_le mode minConfidence insights allowedUrls
    existingTexts maxCount h, ?_⟩
  intro oracle articles
  rw [build_digest_insights]
  exact synthesize_overall_insights_length_le mode minConfidence maxCount h _ _

/-- C4 witness: the amended theorem applied at cap 2 on a concrete batch. -/
theorem c4_batch_gate_cap_witness :
    approve_insights .always 4 [c4Candidate] ["https://a.example/x"] [] 2
      = approve_insights_spec .always 4 [c4Candidate] ["https://a.example/x"] [] 2
    ∧ (approve_insights .always 4 [c4Candidate] ["https://a.example/x"] [] 2).length ≤ 2
    ∧ (build_digest .always 4 2 wOracle wArticles).non_obvious_insights.length ≤ 2 := by
  have h := c4_batch_gate_cap .always 4 [c4Candidate] ["https://a.example/x"] [] 2
    (by decide)
  exact ⟨h.1, h.2.1, h.2.2 wOracle wArticles⟩

/-- C5: mode rules of the single-insight gate — `off` always rejects; `auto`
rejects any candidate whose confidence is strictly below the configured
minimum (whose constructor default is 4); `always` ignores the confidence
threshold entirely but still applies the emptiness, provenance and duplicate
rules, characterized exactly by the final equivalence. -/
theorem c5_gate_mode_rules :
    (∀ (minConfidence : Nat) (insight : Option InsightResponse)
        (allowedUrls existingTexts : List String),
      approve_insight .off minConfidence insight allowedUrls existingTexts = none)
    ∧ (∀ (minConfidence : Nat) (ins : InsightResponse)
          (allowedUrls existingTexts : List String),
        ins.confidence < minConfidence →
        approve_insight .auto minConfidence (some ins) allowedUrls existingTexts = none)
    ∧ (∀ (minConfidence minConfidence' : Nat) (insight : Option InsightResponse)
          (allowedUrls existingTexts : List String),
        approve_insight .always minConfidence insight allowedUrls existingTexts
          = approve_insight .always minConfidence' insight allowedUrls existingTexts)
    ∧ (∀ (minConfidence : Nat) (ins : InsightResponse)
          (allowedUrls existingTexts : List String),
        approve_insight .always minConfidence (some ins) allowedUrls existingTexts = none
          ↔ pyStrip ins.insight = "" ∨ pyStrip ins.why_unintuitive = ""
            ∨ filter_urls ins.supporting_urls allowedUrls = []
            ∨ is_near_duplicate (pyStrip ins.insight) existingTexts = true)
    ∧ default_insight_min_confidence = 4 :=
  ⟨approve_insight_off, approve_insight_auto_low, approve_insight_always_eq,
    approve_insight_always_eq_none_iff, rfl⟩

/-- C5 witness: a confidence-2 candidate is rejected under `auto` with the
default minimum 4, rejected under `off`, and approved under `always`. -/
theorem c5_gate_mode_rules_witness :
    approve_insight .auto 4 (some wLowIns) ["https://a.example/x"] [] = none
    ∧ approve_insight .off 4 (some wLowIns) ["https://a.example/x"] [] = none
    ∧ ¬ (approve_insight .always 4 (some wLowIns) ["https://a.example/x"] [] = none) := by
  refine ⟨c5_gate_mode_rules.2.1 4 wLowIns ["https://a.example/x"] [] (by decide),
    c5_gate_mode_rules.1 4 (some wLowIns) ["https://a.example/x"] [], ?_⟩
  rw [c5_gate_mode_rules.2.2.2.1 4 wLowIns ["https://a.example/x"] []]
  decide

/-- C6: for texts whose token sets are nonempty (so the overlap ratio is
defined), the gate flags a pair as near-duplicates exactly when the
normalized texts are equal or the token overlap ratio
`|inter| / min(|A|, |B|)` is at least 0.8 (stated integrally as
`4 * min ≤ 5 * inter`); and any two texts equal after lowercasing and
whitespace collapsing are duplicates unconditionally. -/
theorem c6_near_duplicate_rule :
    (∀ cand t : String,
      tokenSet (normalize_text cand) ≠ [] → tokenSet (normalize_text t) ≠ [] →
      (is_near_duplicate cand [t] = true
        ↔ normalize_text cand = normalize_text t
          ∨ 4 * Nat.min (tokenSet (normalize_text cand)).length
                (tokenSet (normalize_text t)).length
              ≤ 5 * interCard (tokenSet (normalize_text cand))
                  (tokenSet (normalize_text t))))
    ∧ (∀ cand t : String, normalize_text cand = normalize_text t →
        is_near_duplicate cand [t] = true) :=
  ⟨is_near_duplicate_pair_iff, is_near_duplicate_of_norm_eq⟩

/-- C6 witness: case and whitespace differences alone make duplicates, and a
4-out-of-5 token overlap reaches the 0.8 threshold. -/
theorem c6_near_duplicate_rule_witness :
    is_near_duplicate "Alpha  Beta" ["alpha beta"] = true
    ∧ is_near_duplicate "alpha beta gamma delta epsilon"
        ["alpha beta gamma delta zeta"] = true := by
  constructor
  · exact c6_near_duplicate_rule.2 "Alpha  Beta" "alpha beta" (by decide)
  · exact (c6_near_duplicate_rule.1 "alpha beta gamma delta epsilon"
      "alpha beta gamma delta zeta" (by decide) (by decide)).mpr (Or.inr (by decide))

/-- C7: failures never escape — when a category-level call on a
multi-article category raises, that category digest still appears with the
deterministic fallback synthesis mentioning the article count, takeaways
drawn from the first takeaway of up to three of its articles, and no
insight; when the overall call raises, the digest appears with empty
overall themes, must-read list and insight list. -/
theorem c7_fallback_behavior (mode : InsightsMode) (minConfidence maxCount : Nat)
    (oracle : LLMOracle) (articles : List Article) (_hne : articles ≠ []) :
    (∀ cd ∈ (build_digest mode minConfidence maxCount oracle articles).categories,
      1 < cd.articles.length →
      oracle.categoryResp cd.name cd.articles = none →
      cd.synthesis = fallback_synthesis cd.name cd.articles.length
      ∧ cd.top_takeaways = (cd.articles.take 3).filterMap (fun a => a.key_takeaways.head?)
      ∧ cd.non_obvious_insight = none)
    ∧ (oracle.overallResp (build_digest mode minConfidence maxCount oracle
          articles).categories = none →
        (build_digest mode minConfidence maxCount oracle articles).overall_themes = []
        ∧ (build_digest mode minConfidence maxCount oracle articles).must_read = []
        ∧ (build_digest mode minConfidence maxCount oracle articles).non_obvious_insights
            = []) := by
  constructor
  · intro cd hcd hlen hresp
    rw [build_digest_categories] at hcd
    rcases mem_category_digests_of.mp hcd with ⟨n, hn, heq⟩
    subst heq
    rw [build_category_digest_articles] at hlen
    rw [build_category_digest_name, build_category_digest_articles] at hresp
    rw [hresp, build_category_digest_fallback mode minConfidence n _ hlen]
    exact ⟨rfl, rfl, rfl⟩
  · intro hresp
    rw [build_digest_categories] at hresp
    rw [build_digest_overall_themes, build_digest_must_read, build_digest_insights,
      hresp, synthesize_overall_resp_none]
    exact ⟨rfl, rfl, rfl⟩

/-- C7 witness: with the always-raising oracle, the fixture Tech category
receives the fallback synthesis and the overall fields are empty. -/
theorem c7_fallback_behavior_witness :
    (wDigestFail.categories.getD 1 emptyCd).synthesis
      = fallback_synthesis (wDigestFail.categories.getD 1 emptyCd).name
          (wDigestFail.categories.getD 1 emptyCd).articles.length
    ∧ wDigestFail.must_read = [] := by
  have h := c7_fallback_behavior .auto 4 2 wOracleFail wArticles (by decide)
  constructor
  · exact (h.1 (wDigestFail.categories.getD 1 emptyCd) (by decide) (by decide) rfl).1
  · exact (h.2 rfl).2.1

/-- C8: the digest must-read list derived from an overall response contains
at most 3 entries, without duplicates, each a normalized member of the full
article URL set, and in the relative order of the LLM output (it is a
sublist of the normalized candidate list). -/
theorem c8_must_read_filtering (mode : InsightsMode) (minConfidence maxCount : Nat)
    (oracle : LLMOracle) (articles : List Article) (parsed : OverallSynthesisResponse)
    (hresp : oracle.overallResp (category_digests_of mode minConfidence oracle articles)
      = some parsed) :
    (build_digest mode minConfidence maxCount oracle articles).must_read.length ≤ 3
    ∧ (build_digest mode minConfidence maxCount oracle articles).must_read.Nodup
    ∧ (∀ u ∈ (build_digest mode minConfidence maxCount oracle articles).must_read,
        u ∈ articles.map (fun a => normalize_url a.url))
    ∧ (build_digest mode minConfidence maxCount oracle articles).must_read.Sublist
        (parsed.must_read_overall.map normalize_url) := by
  rw [build_digest_must_read, hresp]
  have h := synthesize_overall_must_read mode minConfidence maxCount
    (category_digests_of mode minConfidence oracle articles) parsed
  refine ⟨h.1, h.2.1, ?_, h.2.2.2⟩
  intro u hu
  exact (category_digests_of_url_perm mode minConfidence oracle articles).mem_iff.mp
    (h.2.2.1 u hu)

/-- C8 witness: in the fixture digest the must-read list keeps the two
allowed normalized URLs, dropping the outside URL and the duplicate, within
the cap and in candidate order. -/
theorem c8_must_read_filtering_witness :
    wDigest.must_read.length ≤ 3
    ∧ wDigest.must_read.Nodup
    ∧ wDigest.must_read.Sublist (wOverallResp.must_read_overall.map normalize_url) := by
  have h := c8_must_read_filtering .always 4 2 wOracle wArticles wOverallResp rfl
  exact ⟨h.1, h.2.1, h.2.2.2⟩

/-- C9 counterexample: an article whose summary is present but equal to the
empty string: the single-article digest synthesis is the feed-name
placeholder, not that (present) summary, refuting the claim that the
placeholder appears only when the summary is absent. -/
theorem c9_counterexample :
    emptySummaryArticle.summary = some ""
    ∧ (build_category_digest .auto 4 "Tech" [emptySummaryArticle] none).synthesis
        = "One article from Example Feed."
    ∧ ¬ ((build_category_digest .auto 4 "Tech" [emptySummaryArticle] none).synthesis
        = "") := by
  decide

/-- C9 (amended): a single-article category is built without consulting the
LLM response (the result is the same for every response value): its
synthesis is the article summary when that is present and non-empty and the
feed-name placeholder when the summary is absent or empty, its takeaways are
the first three of the article, and it carries no insight. -/
theorem c9_single_article_category (mode : InsightsMode) (minConfidence : Nat)
    (categoryName : String) (a : Article) (resp : Option CategorySynthesisResponse) :
    build_category_digest mode minConfidence categoryName [a] resp
      = { name := categoryName, article_count := 1, articles := [a],
          synthesis := orIfBlank a.summary ("One article from " ++ a.feed_name ++ "."),
          top_takeaways := a.key_takeaways.take 3,
          non_obvious_insight := none } :=
  build_category_digest_single mode minConfidence categoryName a resp

/-- C10: a candidate whose insight text is non-empty after trimming but
contains no alphanumeric characters is rejected by the gate for every mode,
minimum confidence, allowed-URL set and existing-text list (the empty list
included); the near-duplicate check holds unconditionally for a candidate
with empty normalized form or empty token set. -/
theorem c10_no_alphanumeric_rejected :
    (∀ (mode : InsightsMode) (minConfidence : Nat) (ins : InsightResponse)
        (allowedUrls existingTexts : List String),
      pyStrip ins.insight ≠ "" →
      (∀ c ∈ ins.insight.data, isTokenChar (Char.toLower c) = false) →
      approve_insight mode minConfidence (some ins) allowedUrls existingTexts = none)
    ∧ (∀ (cand : String) (texts : List String),
        normalize_text cand = "" ∨ tokenSet (normalize_text cand) = [] →
        is_near_duplicate cand texts = true) :=
  ⟨fun mode minConfidence ins allowedUrls existingTexts _ hno =>
      approve_insight_none_of_no_token mode minConfidence ins allowedUrls
        existingTexts hno,
    is_near_duplicate_of_degenerate⟩

/-- C10 witness: the punctuation-only candidate is rejected even though its
trimmed text is non-empty, its URL is allowed and no existing text exists. -/
theorem c10_no_alphanumeric_rejected_witness :
    approve_insight .always 4 (some wPunctIns) ["https://a.example/x"] [] = none
    ∧ is_near_duplicate "!!! ???" [] = true := by
  constructor
  · exact c10_no_alphanumeric_rejected.1 .always 4 wPunctIns ["https://a.example/x"] []
      (by decide) (by decide)
  · exact c10_no_alphanumeric_rejected.2 "!!! ???" [] (Or.inr (by decide))

end Feed

